import Mathlib

/-!
# Verification of the pvDataCPP core against its specification

Shallow embedding of the parts of pvDataCPP relevant to the frozen claims:

* the fixed-size free-list memory pool (`src/misc/vectorPool.cpp`),
* the array value node mutation guards (`PVDataCreateFactory.cpp`,
  `factory/PVArray.cpp`),
* the binary codec for scalars, strings and arrays
  (`PVDataCreateFactory.cpp`, with the size-prefix helper and the
  flow-control controller modelled from the specification since their
  sources are external to the provided tree),
* the change-bitset compression (`BitSetUtil::compress`, modelled from the
  specification; only its test is in the provided tree).

Machine integers are modelled as `Nat` with explicit bounds; byte buffers
as `List Nat` with every entry `< 256`; fallible operations return
`Option`/`Except`.
-/

namespace PvData

/-! ## Memory pool: `freelist_allocator` from `src/misc/vectorPool.cpp`

The pool state records the constructor-initialised configuration
(`elemsize`, `allocsize`, `numalloc`, `capped`) and the mutable counters:
the free list (only its length is observable through `collect_info`, so it
is modelled as a count) and the number of outstanding allocations
`nallocd`. -/

structure PoolState where
  /-- element size `e` fixed at construction -/
  elemsize : Nat
  /-- fixed allocation size (element count per slot), `allocsize` -/
  allocsize : Nat
  /-- the bound `numalloc`: cap on outstanding allocations (capped mode)
      or bound on the retained free list (cached mode) -/
  numalloc : Nat
  /-- `capped` flag: `true` for `capped(n)`, `false` for `cached(n)` -/
  capped : Bool
  /-- number of buffers on the free list, `flist.size()` -/
  flist : Nat
  /-- number of outstanding allocations, `nallocd` -/
  nallocd : Nat
  deriving Repr, DecidableEq

/-- `freelist_allocator::freelist_allocator(name, e, a, n, i, c)`:
the constructor pre-populates the free list with `i` buffers
(`assert(i<=numalloc)` guards the precondition) and starts with no
outstanding allocations. -/
def poolInit (e a n i : Nat) (c : Bool) : PoolState :=
  { elemsize := e, allocsize := a, numalloc := n, capped := c
    flist := i, nallocd := 0 }

/-- Result of `freelist_allocator::alloc`: `.ok` carries the post-state on
success, `.error` carries the post-state at the point the
`std::bad_alloc` exception leaves the method. -/
abbrev AllocResult := Except PoolState PoolState

/-- `freelist_allocator::alloc(ret, e, n, zero)` from
`src/misc/vectorPool.cpp` lines 133-169.  `sysOk` models whether the
underlying `malloc`/`calloc` system call succeeds when it is reached
(the lock juggling around it has no sequential effect).  The requested
byte size is `asize = e*n`; the slot byte size is `elemsize*allocsize`.
On the fresh-allocation path the code increments `nallocd`, calls the
system allocator, and decrements `nallocd` again before throwing if the
system allocator returned null. -/
def poolAlloc (s : PoolState) (e n : Nat) (sysOk : Bool) : AllocResult :=
  let asize := e * n
  if asize > s.elemsize * s.allocsize ∨ (s.capped ∧ s.nallocd = s.numalloc) then
    .error s
  else if s.flist ≠ 0 then
    .ok { s with flist := s.flist - 1, nallocd := s.nallocd + 1 }
  else if sysOk then
    .ok { s with nallocd := s.nallocd + 1 }
  else
    .error { s with nallocd := s.nallocd + 1 - 1 }

/-- `freelist_deleter::operator()(a)` from `src/misc/vectorPool.cpp`
lines 187-203: invoked when the last reference to a pool-backed buffer is
dropped.  It decrements `nallocd` and pushes the buffer back on the free
list only if `flist.size() < numalloc`; otherwise the buffer is handed
back to `free()`. -/
def poolRelease (s : PoolState) : PoolState :=
  let s1 := { s with nallocd := s.nallocd - 1 }
  if s1.flist < s1.numalloc then
    { s1 with flist := s1.flist + 1 }
  else
    s1

/-- Observable statistics of `freelist_allocator::collect_info`
(lines 171-184): `(num_allocs, size_allocs, num_free, size_free)`. -/
def poolInfo (s : PoolState) : Nat × Nat × Nat × Nat :=
  (s.nallocd, s.nallocd * (s.elemsize * s.allocsize),
   s.flist, s.flist * (s.elemsize * s.allocsize))

/-- The invariant asserted by `alloc` lines 140-141 for capped pools. -/
def cappedInvariant (s : PoolState) : Prop :=
  s.nallocd ≤ s.numalloc ∧ s.nallocd + s.flist ≤ s.numalloc

instance (s : PoolState) : Decidable (cappedInvariant s) := by
  unfold cappedInvariant; infer_instance

/-- Did the allocation throw `std::bad_alloc`? -/
def allocFails (r : AllocResult) : Bool :=
  match r with
  | .error _ => true
  | .ok _ => false

/-- The pool state after an allocation attempt, whether or not it threw
(the exception does not destroy the pool). -/
def afterAlloc (r : AllocResult) : PoolState :=
  match r with
  | .error s => s
  | .ok s => s

/-! ## Array value node: `DefaultPVArray<T>` mutations and the
`PVArray` immutability flags

From `factory/PVArray.cpp` and `DefaultPVArray<T>` in
`PVDataCreateFactory.cpp`.  The copy-on-write backing buffer is modelled
by its observable content (`data`) and reserved capacity (`cap`). -/

structure PVArrayNode where
  /-- `PVField::isImmutable()` flag -/
  immutable : Bool
  /-- `PVArray::capacityMutable` flag -/
  capacityMutable : Bool
  /-- element contents of the backing `shared_vector` -/
  data : List Nat
  /-- reserved capacity of the backing `shared_vector` -/
  cap : Nat
  deriving Repr, DecidableEq

/-- Outcome of a mutation on an array node: `.error` carries the node as
the exception leaves it, `.ok` the node after the mutation. -/
abbrev ArrayOpResult := Except PVArrayNode PVArrayNode

/-- `PVArray::isCapacityMutable` (`PVArray.cpp` lines 32-38): reports
`false` for an immutable node regardless of the `capacityMutable` flag. -/
def isCapacityMutable (a : PVArrayNode) : Bool :=
  if a.immutable then false else a.capacityMutable

/-- `DefaultPVArray<T>::setCapacity` (`PVDataCreateFactory.cpp` lines
699-705): reserves storage only when the capacity is mutable, and
otherwise falls through without touching the node and without throwing. -/
def setCapacity (a : PVArrayNode) (capacity : Nat) : ArrayOpResult :=
  if isCapacityMutable a then .ok { a with cap := max a.cap capacity }
  else .ok a

/-- `DefaultPVArray<T>::setLength` (lines 707-718): throws
`std::logic_error("Immutable")` on an immutable node, else truncates or
zero-extends the value to the requested length. -/
def setLength (a : PVArrayNode) (length : Nat) : ArrayOpResult :=
  if a.immutable then .error a
  else if length = a.data.length then .ok a
  else if length < a.data.length then .ok { a with data := a.data.take length }
  else .ok { a with data := a.data ++ List.replicate (length - a.data.length) 0
                  , cap := max a.cap length }

/-- `DefaultPVArray<T>::swap` (lines 727-734): throws on an immutable
node, else exchanges the backing buffer with `other`. -/
def swapBuffer (a : PVArrayNode) (other : List Nat) :
    Except PVArrayNode (PVArrayNode × List Nat) :=
  if a.immutable then .error a
  else .ok ({ a with data := other }, a.data)

/-- `PVArray::setCapacityMutable` (`PVArray.cpp` lines 40-46): escalating
to a mutable capacity on an immutable node throws
`std::runtime_error("field is immutable")`. -/
def setCapacityMutable (a : PVArrayNode) (isMutable : Bool) : ArrayOpResult :=
  if isMutable ∧ a.immutable then .error a
  else .ok { a with capacityMutable := isMutable }

/-! ## Change-bitset compression

The value-tree shape relevant to `BitSetUtil::compress`: a node is a leaf
(scalar, scalar array, structure array: one field offset) or a structure
with an ordered list of children.  Pre-order offsets: a node at offset
`o` owns `[o, o + fieldCount) `; its first child sits at `o + 1` and each
next child at the previous child's `nextOffset`.  The bitset is a `Nat`
read as a bit vector (`Nat.testBit`). -/

inductive PVNode where
  | leaf : PVNode
  | struct : List PVNode → PVNode
  deriving Repr

mutual
/-- `PVField::getNumberFields()`: size of the node's own subtree,
itself included. -/
def fieldCount : PVNode → Nat
  | .leaf => 1
  | .struct cs => 1 + fieldCountList cs
/-- Total field count of a list of sibling subtrees. -/
def fieldCountList : List PVNode → Nat
  | [] => 0
  | c :: rest => fieldCount c + fieldCountList rest
end

/-- Set bit `i` of the bitset `b`. -/
def setBit (b i : Nat) : Nat := b ||| 2 ^ i

/-- Clear bit `i` of the bitset `b`. -/
def clearBit (b i : Nat) : Nat := if b.testBit i then b - 2 ^ i else b

/-- Are the bits at the offsets of all the structure's immediate
children (first child at offset `o`) set in `b`? -/
def childrenAllSet : List PVNode → Nat → Nat → Bool
  | [], _, _ => true
  | c :: rest, o, b => b.testBit o && childrenAllSet rest (o + fieldCount c) b

/-- Clear the bits at the offsets of all the structure's immediate
children (first child at offset `o`). -/
def clearChildren : List PVNode → Nat → Nat → Nat
  | [], _, b => b
  | c :: rest, o, b => clearChildren rest (o + fieldCount c) (clearBit b o)

mutual
/-- Modelled from the spec: `BitSetUtil::compress(bitset, node)` (its
implementation is not under the provided tree, only its test).  §4.4:
"recursively, for each Structure-value node processed in post-order
(children before parent), after all of its children have been
compressed, test whether the bits at every one of its immediate
children's offsets are set; if so, clear every one of those child bits
and set the bit at the structure's own offset instead."  `o` is the
node's own pre-order offset. -/
def compressNode : PVNode → Nat → Nat → Nat
  | .leaf, _, b => b
  | .struct cs, o, b =>
    let b1 := compressChildren cs (o + 1) b
    if childrenAllSet cs (o + 1) b1 then setBit (clearChildren cs (o + 1) b1) o
    else b1
/-- Compress each sibling subtree in order, first sibling at offset `o`. -/
def compressChildren : List PVNode → Nat → Nat → Nat
  | [], _, b => b
  | c :: rest, o, b => compressChildren rest (o + fieldCount c) (compressNode c o b)
end

/-- The `alarm{severity, status, message}` structure of
`testBitSetUtil.cpp`. -/
def alarmNode : PVNode := .struct [.leaf, .leaf, .leaf]

/-- The `current{value, alarm{severity, status, message}}` structure of
`testBitSetUtil.cpp`; taking its own offset as 0: `current = 0`,
`value = 1`, `alarm = 2`, `severity = 3`, `status = 4`, `message = 5`. -/
def currentNode : PVNode := .struct [.leaf, alarmNode]

/-! ## Binary codec

Bytes are `Nat`s below 256; the byte order of the modelled `ByteBuffer`
is fixed (little-endian) and agrees with the host, so
`ByteBuffer::reverse<T>()` is `false` and both the direct-transfer and
the element-copy paths are exercised without byte swapping.  The
`DeserializableControl` flow controller is modelled by the pair of the
bytes currently in the buffer (`buf`) and the pending input fragments
(`frags`) the controller can still deliver. -/

/-- `ByteBuffer::put<T>`: the `w`-byte fixed-width encoding of `v`
(little-endian). -/
def toBytes : Nat → Nat → List Nat
  | 0, _ => []
  | w + 1, v => v % 256 :: toBytes w (v / 256)

/-- `ByteBuffer::get<T>`: decode a fixed-width little-endian value. -/
def fromBytes : List Nat → Nat
  | [] => 0
  | b :: rest => b + 256 * fromBytes rest

/-- Modelled from the spec: the variable-length non-negative size
encoding of `SerializeHelper::writeSize` (§6: "a variable-length
non-negative integer prefix (exact encoding owned by a small external
helper) precedes every string and array payload"; the helper itself is
not under the provided tree).  Small sizes occupy one byte; larger sizes
an escape byte followed by a fixed 32-bit encoding. -/
def writeSize (n : Nat) : List Nat :=
  if n < 254 then [n] else 254 :: toBytes 4 n

/-- Modelled from the spec: `DeserializableControl::ensureData(n)` (§6:
"block/request until at least n bytes available").  Whole fragments are
moved from the pending stream into the buffer until at least `n` bytes
are buffered; when the stream runs out first, the exhausted state is
returned (consumers treat an unsatisfied demand as blocking forever). -/
def ensureData (buf : List Nat) (frags : List (List Nat)) (n : Nat) :
    List Nat × List (List Nat) :=
  if n ≤ buf.length then (buf, frags)
  else
    match frags with
    | [] => (buf, [])
    | f :: rest => ensureData (buf ++ f) rest n
termination_by frags.length

/-- Modelled from the spec: `SerializeHelper::readSize`, inverse of
`writeSize`, pulling bytes through `ensureData` as needed. -/
def readSize (buf : List Nat) (frags : List (List Nat)) :
    Option (Nat × List Nat × List (List Nat)) :=
  match ensureData buf frags 1 with
  | ([], _) => none
  | (b :: rest, f1) =>
    if b < 254 then some (b, rest, f1)
    else
      let (b2, f2) := ensureData rest f1 4
      if 4 ≤ b2.length then some (fromBytes (b2.take 4), b2.drop 4, f2)
      else none

/-- `ByteBuffer::getArray(cur, n)`: decode `n` consecutive `w`-byte
elements from the front of the buffer. -/
def decodeChunks (w : Nat) : Nat → List Nat → List Nat
  | 0, _ => []
  | n + 1, buf => fromBytes (buf.take w) :: decodeChunks w n (buf.drop w)

/-- The `want` computation of the element-copy deserialization loop
(`DefaultPVArray<T>::deserialize`, `PVDataCreateFactory.cpp` lines
770-781): a full element size, except that for the final element the
request is only the bytes still missing from it. -/
def wantBytes (w remaining haveBytes : Nat) : Nat :=
  if remaining = 1 ∧ 1 < w then w - haveBytes else w

/-- Outcome of the element-copy deserialization loop: the `ensureData`
requests it issued, as `(remaining, have_bytes, want)` triples, and
`some (elements, buf, frags)` on completion — `none` when the loop can
never complete (it blocks in `ensureData` on an exhausted stream, or
re-issues for ever a demand the buffer already meets). -/
structure DeserRun where
  trace : List (Nat × Nat × Nat)
  result : Option (List Nat × List Nat × List (List Nat))
  deriving Repr, DecidableEq

set_option linter.unusedVariables false in
/-- The element-copy loop of `DefaultPVArray<T>::deserialize`
(`PVDataCreateFactory.cpp` lines 763-789): while elements remain, count
the whole elements available in the buffer; if none, request `want`
bytes from the controller and retry; otherwise pull
`min(remaining, available)` elements out of the buffer. -/
def deserLoop (w remaining : Nat) (buf : List Nat) (frags : List (List Nat))
    (acc : List Nat) : DeserRun :=
  if hr : remaining = 0 then ⟨[], some (acc, buf, frags)⟩
  else
    if ha : buf.length / w = 0 then
      if hp : (ensureData buf frags (wantBytes w remaining buf.length)).2.length
                < frags.length then
        let r := deserLoop w remaining
          (ensureData buf frags (wantBytes w remaining buf.length)).1
          (ensureData buf frags (wantBytes w remaining buf.length)).2 acc
        ⟨(remaining, buf.length, wantBytes w remaining buf.length) :: r.trace,
         r.result⟩
      else ⟨[(remaining, buf.length, wantBytes w remaining buf.length)], none⟩
    else
      deserLoop w (remaining - min remaining (buf.length / w))
        (buf.drop (min remaining (buf.length / w) * w)) frags
        (acc ++ decodeChunks w (min remaining (buf.length / w)) buf)
termination_by remaining + frags.length
decreasing_by
  · omega
  · exact Nat.add_lt_add_right
      (Nat.sub_lt (Nat.pos_of_ne_zero hr)
        (lt_min_iff.mpr ⟨Nat.pos_of_ne_zero hr, Nat.pos_of_ne_zero ha⟩))
      frags.length

/-- The element-copy (non-direct) path of
`DefaultPVArray<T>::deserialize`: read the size prefix, then run the
element-copy loop on an initially empty element buffer. -/
def arrayDeserializeSlow (w : Nat) (buf : List Nat)
    (frags : List (List Nat)) : DeserRun :=
  match readSize buf frags with
  | none => ⟨[], none⟩
  | some (size, buf1, frags1) => deserLoop w size buf1 frags1 []

/-- Modelled from the spec (§4.3/§6): the accepted
`directDeserialize` fast path of `DefaultPVArray<T>::deserialize` — the
controller fills the destination with `size` whole elements in one bulk
transfer from the byte stream. -/
def arrayDeserializeDirect (w : Nat) (buf : List Nat)
    (frags : List (List Nat)) : Option (List Nat × List Nat) :=
  match readSize buf frags with
  | none => none
  | some (size, buf1, frags1) =>
    let all := buf1 ++ frags1.flatten
    if size * w ≤ all.length then
      some (decodeChunks w size all, all.drop (size * w))
    else none

/-- `BasePVScalar<T>::serialize` (`PVDataCreateFactory.cpp` lines
562-567): `ensureBuffer(sizeof(T))` then `pbuffer->put(value)` — the
fixed-width encoding of the value. -/
def scalarSerialize (w v : Nat) : List Nat := toBytes w v

/-- `BasePVScalar<T>::deserialize` (lines 569-575):
`ensureData(sizeof(T))` then `value = pbuffer->GET(T)`. -/
def scalarDeserialize (w : Nat) (buf : List Nat) (frags : List (List Nat)) :
    Option (Nat × List Nat × List (List Nat)) :=
  match ensureData buf frags w with
  | (b1, f1) =>
    if w ≤ b1.length then some (fromBytes (b1.take w), b1.drop w, f1)
    else none

/-- Modelled from the spec: `SerializeHelper::serializeString` — "a
variable-length size prefix followed by raw UTF-8 bytes" (§4.3); the
helper's source is not under the provided tree.  Used by
`BasePVString::serialize` (lines 624-628). -/
def serializeString (s : List Nat) : List Nat := writeSize s.length ++ s

/-- Modelled from the spec: `SerializeHelper::deserializeString`, inverse
of `serializeString`, demanding the payload bytes through `ensureData`.
Used by `BasePVString::deserialize` (lines 630-634). -/
def deserializeString (buf : List Nat) (frags : List (List Nat)) :
    Option (List Nat × List Nat × List (List Nat)) :=
  match readSize buf frags with
  | none => none
  | some (n, b1, f1) =>
    match ensureData b1 f1 n with
    | (b2, f2) =>
      if n ≤ b2.length then some (b2.take n, b2.drop n, f2)
      else none

/-- Modelled from the spec: `SerializeHelper::serializeSubstring(value,
offset, count, ...)` writes the size prefix `count` followed by the
`count` bytes of `value` starting at `offset`, "without materializing an
intermediate string" (§4.3). -/
def serializeSubstring (value : List Nat) (offset count : Nat) : List Nat :=
  writeSize count ++ (value.drop offset).take count

/-- `BasePVString::serialize(pbuffer, pflusher, offset, count)`
(`PVDataCreateFactory.cpp` lines 636-651): clamp `offset` to the string
length and `count` to `length - offset`, then delegate to
`serializeSubstring`. -/
def stringSerializeBounded (value : List Nat) (offset count : Nat) : List Nat :=
  let length := value.length
  let offset2 := if offset > length then length else offset
  let maxCount := length - offset2
  let count2 := if count > maxCount then maxCount else count
  serializeSubstring value offset2 count2

set_option linter.unusedVariables false in
/-- The chunked element-copy output loop of
`DefaultPVArray<T>::serialize` (lines 814-832) writing into an output
buffer of byte capacity `cap`: while elements remain, compute the whole
elements fitting in the remaining space; if none fit, flush the buffer
and retry (`none` models the spin when even an empty buffer is too small
for one element); finish with a final flush.  `obuf` is the pending
output buffer, `out` the bytes flushed so far. -/
def serializeLoop (w cap : Nat) : List Nat → List Nat → List Nat →
    Option (List Nat)
  | [], obuf, out => some (out ++ obuf)
  | e :: elems, obuf, out =>
    if hs : (cap - obuf.length) / w = 0 then
      if he : obuf.isEmpty then none
      else serializeLoop w cap (e :: elems) [] (out ++ obuf)
    else
      serializeLoop w cap
        ((e :: elems).drop (min (e :: elems).length ((cap - obuf.length) / w)))
        (obuf ++ (((e :: elems).take
            (min (e :: elems).length ((cap - obuf.length) / w))).map
              (toBytes w)).flatten)
        out
termination_by elems obuf out => (elems.length, obuf.length)
decreasing_by
  · apply Prod.Lex.right
    have h2 : obuf ≠ [] := by simpa [List.isEmpty_iff] using he
    simpa using List.length_pos.mpr h2
  · apply Prod.Lex.left
    have h1 : 0 < min (elems.length + 1) ((cap - obuf.length) / w) :=
      lt_min_iff.mpr ⟨Nat.succ_pos _, Nat.pos_of_ne_zero hs⟩
    simp only [List.length_drop, List.length_cons]
    omega

/-- The byte stream produced by `DefaultPVArray<T>::serialize(pbuffer,
pflusher, offset, count)` for the whole value (lines 795-833): the size
prefix followed by the fixed-width encodings of the elements in order
(the theorem `serializeLoop_writes_all` establishes that the chunked
output loop emits exactly the element encodings in order; the accepted
`directSerialize` path hands over the same bytes in one call). -/
def arraySerializeBytes (w : Nat) (elems : List Nat) : List Nat :=
  writeSize elems.length ++ (elems.map (toBytes w)).flatten

/-- `DefaultPVArray<String>::serialize` (lines 861-874): the size prefix
followed by each string serialized in order. -/
def stringArraySerializeBytes (ss : List (List Nat)) : List Nat :=
  writeSize ss.length ++ (ss.map serializeString).flatten

/-- The per-element loop of `DefaultPVArray<String>::deserialize`
(lines 851-855): read `n` strings in order. -/
def deserializeStrings : Nat → List Nat → List (List Nat) →
    Option (List (List Nat) × List Nat × List (List Nat))
  | 0, buf, frags => some ([], buf, frags)
  | n + 1, buf, frags =>
    match deserializeString buf frags with
    | none => none
    | some (s, b1, f1) =>
      match deserializeStrings n b1 f1 with
      | none => none
      | some (ss, b2, f2) => some (s :: ss, b2, f2)

/-- `DefaultPVArray<String>::deserialize` (lines 837-859): read the size
prefix, then each string element in order. -/
def stringArrayDeserialize (buf : List Nat) (frags : List (List Nat)) :
    Option (List (List Nat) × List Nat × List (List Nat)) :=
  match readSize buf frags with
  | none => none
  | some (n, b1, f1) => deserializeStrings n b1 f1

/-! ## Value trees for the codec round trip

A value is a scalar of a fixed byte width, a string, a non-string array,
a string array, or a structure of values; the matching introspection
shape mirrors it.  `Structure`/`PVStructure` serialization is the
ordered concatenation of the children's serializations (modelled from
the spec §4.3: "Structure ...: encoded as the ordered concatenation of
child encodings in descriptor field order"; `PVStructure`'s own code is
not under the provided tree). -/

mutual
inductive PVType : Type where
  | scalarT : Nat → PVType
  | stringT : PVType
  | arrayT : Nat → PVType
  | stringArrayT : PVType
  | structT : PVTypeList → PVType
  deriving Repr
inductive PVTypeList : Type where
  | nil : PVTypeList
  | cons : PVType → PVTypeList → PVTypeList
  deriving Repr
end

mutual
inductive PVValue : Type where
  | scalarV : Nat → Nat → PVValue
  | stringV : List Nat → PVValue
  | arrayV : Nat → List Nat → PVValue
  | stringArrayV : List (List Nat) → PVValue
  | structV : PVValueList → PVValue
  deriving Repr
inductive PVValueList : Type where
  | nil : PVValueList
  | cons : PVValue → PVValueList → PVValueList
  deriving Repr
end

mutual
/-- The introspection type a value conforms to. -/
def typeOf : PVValue → PVType
  | .scalarV w _ => .scalarT w
  | .stringV _ => .stringT
  | .arrayV w _ => .arrayT w
  | .stringArrayV _ => .stringArrayT
  | .structV fs => .structT (typeOfList fs)
def typeOfList : PVValueList → PVTypeList
  | .nil => .nil
  | .cons v rest => .cons (typeOf v) (typeOfList rest)
end

mutual
/-- Representability bounds: scalar widths are positive and values fit
their fixed width (the C++ values always do by their machine types);
lengths fit the 32-bit size encoding (`size_t` values that
`writeSize` can represent). -/
def boundsOK : PVValue → Bool
  | .scalarV w v => decide (0 < w) && decide (v < 256 ^ w)
  | .stringV s => decide (s.length < 2 ^ 32)
  | .arrayV w es =>
      decide (0 < w) && decide (es.length < 2 ^ 32)
        && es.all (fun v => decide (v < 256 ^ w))
  | .stringArrayV ss =>
      decide (ss.length < 2 ^ 32)
        && ss.all (fun s => decide (s.length < 2 ^ 32))
  | .structV fs => boundsOKList fs
def boundsOKList : PVValueList → Bool
  | .nil => true
  | .cons v rest => boundsOK v && boundsOKList rest
end

mutual
/-- `serialize(buffer, controller)` over a value tree: scalars, strings
and arrays as above; structures as the ordered concatenation of child
encodings. -/
def serializeValue : PVValue → List Nat
  | .scalarV w v => scalarSerialize w v
  | .stringV s => serializeString s
  | .arrayV w es => arraySerializeBytes w es
  | .stringArrayV ss => stringArraySerializeBytes ss
  | .structV fs => serializeValueList fs
def serializeValueList : PVValueList → List Nat
  | .nil => []
  | .cons v rest => serializeValue v ++ serializeValueList rest
end

mutual
/-- `deserialize(buffer, controller)` into a default-valued node of
introspection type `t`: each kind's deserializer as above; `direct`
selects, for non-string arrays, whether the controller accepts the
`directDeserialize` bulk path. -/
def deserializeValue : PVType → Bool → List Nat → List (List Nat) →
    Option (PVValue × List Nat × List (List Nat))
  | .scalarT w, _, buf, frags =>
    match scalarDeserialize w buf frags with
    | none => none
    | some (v, b, f) => some (.scalarV w v, b, f)
  | .stringT, _, buf, frags =>
    match deserializeString buf frags with
    | none => none
    | some (s, b, f) => some (.stringV s, b, f)
  | .arrayT w, direct, buf, frags =>
    if direct then
      match arrayDeserializeDirect w buf frags with
      | none => none
      | some (es, rest) => some (.arrayV w es, rest, [])
    else
      match (arrayDeserializeSlow w buf frags).result with
      | none => none
      | some (es, b, f) => some (.arrayV w es, b, f)
  | .stringArrayT, _, buf, frags =>
    match stringArrayDeserialize buf frags with
    | none => none
    | some (ss, b, f) => some (.stringArrayV ss, b, f)
  | .structT ts, direct, buf, frags =>
    match deserializeValueList ts direct buf frags with
    | none => none
    | some (vs, b, f) => some (.structV vs, b, f)
def deserializeValueList : PVTypeList → Bool → List Nat → List (List Nat) →
    Option (PVValueList × List Nat × List (List Nat))
  | .nil, _, buf, frags => some (.nil, buf, frags)
  | .cons t ts, direct, buf, frags =>
    match deserializeValue t direct buf frags with
    | none => none
    | some (v, b1, f1) =>
      match deserializeValueList ts direct b1 f1 with
      | none => none
      | some (vs, b2, f2) => some (.cons v vs, b2, f2)
end

/-- A byte stream delivered one byte per fragment. -/
def toSingles (bs : List Nat) : List (List Nat) := bs.map (fun b => [b])

/-! ## Theorems -/

theorem toBytes_length (w : Nat) : ∀ v : Nat, (toBytes w v).length = w := by
  induction w with
  | zero => intro v; rfl
  | succ w ih => intro v; simp [toBytes, ih]

theorem fromBytes_toBytes (w : Nat) :
    ∀ v : Nat, v < 256 ^ w → fromBytes (toBytes w v) = v := by
  induction w with
  | zero => intro v hv; interval_cases v; rfl
  | succ w ih =>
    intro v hv
    have hdiv : v / 256 < 256 ^ w := by
      rw [Nat.div_lt_iff_lt_mul (by norm_num)]
      calc v < 256 ^ (w + 1) := hv
        _ = 256 ^ w * 256 := by ring
    simp only [toBytes, fromBytes, ih _ hdiv]
    omega

theorem take_toBytes_append (w v : Nat) (rest : List Nat) :
    (toBytes w v ++ rest).take w = toBytes w v := by
  rw [List.take_left' (toBytes_length w v)]

theorem drop_toBytes_append (w v : Nat) (rest : List Nat) :
    (toBytes w v ++ rest).drop w = rest := by
  rw [List.drop_left' (toBytes_length w v)]

theorem decodeChunks_flatten (w : Nat) :
    ∀ (elems rest : List Nat), (∀ v ∈ elems, v < 256 ^ w) →
      decodeChunks w elems.length ((elems.map (toBytes w)).flatten ++ rest)
        = elems := by
  intro elems
  induction elems with
  | nil => intro rest _; rfl
  | cons e tail ih =>
    intro rest hb
    simp only [List.map_cons, List.flatten_cons, List.length_cons,
      List.append_assoc, decodeChunks]
    rw [take_toBytes_append, drop_toBytes_append,
      fromBytes_toBytes w e (hb e (by simp)), ih _ (fun v hv => hb v (by simp [hv]))]

theorem ensureData_noop (buf : List Nat) (frags : List (List Nat)) (n : Nat)
    (h : n ≤ buf.length) : ensureData buf frags n = (buf, frags) := by
  rw [ensureData.eq_def, if_pos h]

theorem flatten_map_toBytes_length (w : Nat) (elems : List Nat) :
    ((elems.map (toBytes w)).flatten).length = elems.length * w := by
  induction elems with
  | nil => simp
  | cons e tail ih => simp [ih, toBytes_length]; ring

theorem toSingles_length (bs : List Nat) : (toSingles bs).length = bs.length := by
  simp [toSingles]

theorem wantBytes_zero_have (w r : Nat) : wantBytes w r 0 = w := by
  unfold wantBytes
  split <;> omega

theorem deserLoop_zero (w : Nat) (buf : List Nat) (frags : List (List Nat))
    (acc : List Nat) : deserLoop w 0 buf frags acc = ⟨[], some (acc, buf, frags)⟩ := by
  unfold deserLoop
  rfl

theorem readSize_writeSize (n : Nat) (rest : List Nat)
    (frags : List (List Nat)) (h : n < 2 ^ 32) :
    readSize (writeSize n ++ rest) frags = some (n, rest, frags) := by
  by_cases hn : n < 254
  · simp only [writeSize, if_pos hn, List.cons_append, List.nil_append, readSize]
    rw [ensureData_noop _ _ _ (by simp)]
    simp [hn]
  · simp only [writeSize, if_neg hn, List.cons_append, readSize]
    rw [ensureData_noop _ _ _ (by simp)]
    simp only [show ¬(254 < 254) from by norm_num, if_false]
    rw [ensureData_noop _ _ _ (by simp [toBytes_length])]
    rw [if_pos (show 4 ≤ (toBytes 4 n ++ rest).length from by simp [toBytes_length])]
    rw [take_toBytes_append, drop_toBytes_append, fromBytes_toBytes 4 n h]

theorem deserLoop_all_buffered (w : Nat) (hw : 0 < w) (elems rest acc : List Nat)
    (frags : List (List Nat)) (hb : ∀ v ∈ elems, v < 256 ^ w) :
    deserLoop w elems.length ((elems.map (toBytes w)).flatten ++ rest) frags acc
      = ⟨[], some (acc ++ elems, rest, frags)⟩ := by
  cases elems with
  | nil => simp [deserLoop_zero]
  | cons e tail =>
    have hlen : ((((e :: tail).map (toBytes w)).flatten ++ rest)).length
        = (tail.length + 1) * w + rest.length := by
      rw [List.length_append, flatten_map_toBytes_length, List.length_cons]
    rw [deserLoop.eq_def]
    rw [dif_neg (by simp : ¬(e :: tail).length = 0)]
    have hge : w ≤ ((((e :: tail).map (toBytes w)).flatten ++ rest)).length := by
      rw [hlen]; nlinarith
    have hdiv : ¬((((e :: tail).map (toBytes w)).flatten ++ rest)).length / w = 0 := by
      have := (Nat.one_le_div_iff hw).mpr hge
      omega
    rw [dif_neg hdiv]
    have hmin : min (e :: tail).length
        (((((e :: tail).map (toBytes w)).flatten ++ rest)).length / w)
          = tail.length + 1 := by
      have h2 : tail.length + 1 ≤
          ((((e :: tail).map (toBytes w)).flatten ++ rest)).length / w := by
        rw [Nat.le_div_iff_mul_le hw, hlen]
        omega
      simp only [List.length_cons]
      omega
    rw [hmin]
    have hflat : (((e :: tail).map (toBytes w)).flatten).length
        = (tail.length + 1) * w := by
      rw [flatten_map_toBytes_length, List.length_cons]
    have hdrop : ((((e :: tail).map (toBytes w)).flatten ++ rest)).drop
        ((tail.length + 1) * w) = rest := List.drop_left' hflat
    have hdec : decodeChunks w (tail.length + 1)
        (((e :: tail).map (toBytes w)).flatten ++ rest) = e :: tail := by
      have := decodeChunks_flatten w (e :: tail) rest hb
      simpa using this
    simp only [List.length_cons] at hdec ⊢
    rw [hdrop, hdec, Nat.sub_self, deserLoop_zero]

theorem ensureData_singles :
    ∀ (bs buf : List Nat) (n : Nat), n ≤ buf.length + bs.length →
      ensureData buf (toSingles bs) n
        = (buf ++ bs.take (n - buf.length), toSingles (bs.drop (n - buf.length))) := by
  intro bs
  induction bs with
  | nil =>
    intro buf n h
    simp only [List.length_nil, Nat.add_zero] at h
    rw [ensureData_noop _ _ _ h]
    have h0 : n - buf.length = 0 := by omega
    simp [h0]
  | cons b tail ih =>
    intro buf n h
    by_cases hn : n ≤ buf.length
    · rw [ensureData_noop _ _ _ hn]
      have h0 : n - buf.length = 0 := by omega
      simp [h0]
    · rw [ensureData.eq_def, if_neg hn]
      simp only [toSingles, List.map_cons]
      rw [show ensureData (buf ++ [b]) (List.map (fun b => [b]) tail) n
            = ensureData (buf ++ [b]) (toSingles tail) n from rfl]
      rw [ih (buf ++ [b]) n (by simp at h ⊢; omega)]
      have hk : n - buf.length = (n - (buf.length + 1)) + 1 := by omega
      rw [hk]
      simp [toSingles, List.append_assoc, List.map_drop]

theorem deserLoop_singles (w : Nat) (hw : 0 < w) :
    ∀ (elems acc : List Nat), (∀ v ∈ elems, v < 256 ^ w) →
      (deserLoop w elems.length []
          (toSingles ((elems.map (toBytes w)).flatten)) acc).result
        = some (acc ++ elems, [], []) := by
  intro elems
  induction elems with
  | nil => intro acc _; simp [toSingles, deserLoop_zero]
  | cons e tail ih =>
    intro acc hb
    rw [deserLoop.eq_def]
    rw [dif_neg (by simp : ¬(e :: tail).length = 0)]
    rw [dif_pos (by simp : (([] : List Nat)).length / w = 0)]
    have hwant : wantBytes w (e :: tail).length ([] : List Nat).length = w := by
      simpa using wantBytes_zero_have w (e :: tail).length
    rw [hwant]
    have hens : ensureData [] (toSingles (((e :: tail).map (toBytes w)).flatten)) w
        = (toBytes w e, toSingles ((tail.map (toBytes w)).flatten)) := by
      rw [ensureData_singles _ _ _ (by
        simp only [List.length_nil, Nat.zero_add, flatten_map_toBytes_length,
          List.length_cons]
        nlinarith)]
      simp only [List.map_cons, List.flatten_cons, List.nil_append,
        Nat.sub_zero, List.length_nil]
      rw [take_toBytes_append, drop_toBytes_append]
    rw [hens]
    have hp : (toSingles ((tail.map (toBytes w)).flatten)).length
        < (toSingles (((e :: tail).map (toBytes w)).flatten)).length := by
      simp only [toSingles_length, flatten_map_toBytes_length, List.length_cons]
      nlinarith
    rw [dif_pos hp]
    simp only
    rw [deserLoop.eq_def]
    rw [dif_neg (by simp : ¬(e :: tail).length = 0)]
    have hbl : (toBytes w e).length / w = 1 := by
      rw [toBytes_length, Nat.div_self hw]
    rw [dif_neg (by rw [hbl]; omega)]
    rw [hbl]
    have hmin : min (e :: tail).length 1 = 1 := by
      simp only [List.length_cons]
      omega
    rw [hmin]
    have hdrop : (toBytes w e).drop (1 * w) = [] := by
      rw [Nat.one_mul]
      apply List.drop_eq_nil_of_le
      rw [toBytes_length]
    have hdec : decodeChunks w 1 (toBytes w e) = [e] := by
      simp only [decodeChunks]
      rw [List.take_of_length_le (by rw [toBytes_length])]
      rw [fromBytes_toBytes w e (hb e (by simp))]
    rw [hdrop, hdec]
    have hrem : (e :: tail).length - 1 = tail.length := by simp
    rw [hrem]
    have := ih (acc ++ [e]) (fun v hv => hb v (by simp [hv]))
    rw [this]
    simp

theorem deserLoop_trace_requests (w : Nat) (hw : 0 < w) :
    ∀ (n remaining : Nat) (buf : List Nat) (frags : List (List Nat))
      (acc : List Nat), remaining + frags.length ≤ n →
      ∀ t ∈ (deserLoop w remaining buf frags acc).trace,
        t.2.1 < w ∧ t.2.2 = wantBytes w t.1 t.2.1 := by
  intro n
  induction n with
  | zero =>
    intro remaining buf frags acc hn t ht
    have hr0 : remaining = 0 := by omega
    subst hr0
    rw [deserLoop_zero] at ht
    simp at ht
  | succ n ih =>
    intro remaining buf frags acc hn t ht
    by_cases hr : remaining = 0
    · subst hr
      rw [deserLoop_zero] at ht
      simp at ht
    · by_cases ha : buf.length / w = 0
      · by_cases hp : (ensureData buf frags
            (wantBytes w remaining buf.length)).2.length < frags.length
        · rw [deserLoop.eq_def, dif_neg hr, dif_pos ha, dif_pos hp] at ht
          simp only [List.mem_cons] at ht
          rcases ht with ht | ht
          · subst ht
            refine ⟨?_, rfl⟩
            show buf.length < w
            have := (Nat.div_eq_zero_iff (by omega)).mp ha
            omega
          · exact ih remaining _ _ acc (by omega) t ht
        · rw [deserLoop.eq_def, dif_neg hr, dif_pos ha, dif_neg hp] at ht
          simp only [List.mem_singleton] at ht
          subst ht
          refine ⟨?_, rfl⟩
          show buf.length < w
          have := (Nat.div_eq_zero_iff (by omega)).mp ha
          omega
      · rw [deserLoop.eq_def, dif_neg hr, dif_neg ha] at ht
        have hmin : 1 ≤ min remaining (buf.length / w) :=
          le_min (by omega) (Nat.pos_of_ne_zero ha)
        exact ih (remaining - min remaining (buf.length / w)) _ _ _
          (by omega) t ht

theorem readSize_singles (n : Nat) (rest : List Nat) (h : n < 2 ^ 32) :
    readSize [] (toSingles (writeSize n ++ rest)) = some (n, [], toSingles rest) := by
  by_cases hn : n < 254
  · have hstream : writeSize n ++ rest = n :: rest := by simp [writeSize, hn]
    rw [hstream]
    have h1 : ensureData [] (toSingles (n :: rest)) 1 = ([n], toSingles rest) := by
      rw [show toSingles (n :: rest) = [n] :: toSingles rest from rfl]
      rw [ensureData.eq_def, if_neg (by simp)]
      simp only [List.nil_append]
      exact ensureData_noop _ _ _ (by simp)
    rw [readSize, h1]
    simp [hn]
  · have hstream : writeSize n ++ rest = 254 :: (toBytes 4 n ++ rest) := by
      simp [writeSize, hn]
    rw [hstream]
    have h1 : ensureData [] (toSingles (254 :: (toBytes 4 n ++ rest))) 1
        = ([254], toSingles (toBytes 4 n ++ rest)) := by
      rw [show toSingles (254 :: (toBytes 4 n ++ rest))
            = [254] :: toSingles (toBytes 4 n ++ rest) from rfl]
      rw [ensureData.eq_def, if_neg (by simp)]
      simp only [List.nil_append]
      exact ensureData_noop _ _ _ (by simp)
    rw [readSize, h1]
    simp only [show ¬((254 : Nat) < 254) from by norm_num, if_false]
    rw [ensureData_singles _ _ _ (by simp [toBytes_length])]
    simp only [List.nil_append, List.length_nil, Nat.sub_zero]
    rw [take_toBytes_append, drop_toBytes_append]
    rw [if_pos (show 4 ≤ (toBytes 4 n).length from by simp [toBytes_length])]
    rw [List.take_of_length_le (by simp [toBytes_length])]
    rw [List.drop_eq_nil_of_le (by simp [toBytes_length])]
    rw [fromBytes_toBytes 4 n h]

theorem readSize_single_fragment (n : Nat) (rest : List Nat) (h : n < 2 ^ 32) :
    readSize [] [writeSize n ++ rest] = some (n, rest, []) := by
  by_cases hn : n < 254
  · have hstream : writeSize n ++ rest = n :: rest := by simp [writeSize, hn]
    rw [hstream]
    have h1 : ensureData [] [n :: rest] 1 = (n :: rest, []) := by
      rw [ensureData.eq_def, if_neg (by simp)]
      simp only [List.nil_append]
      exact ensureData_noop _ _ _ (by simp)
    rw [readSize, h1]
    simp [hn]
  · have hstream : writeSize n ++ rest = 254 :: (toBytes 4 n ++ rest) := by
      simp [writeSize, hn]
    rw [hstream]
    have h1 : ensureData [] [254 :: (toBytes 4 n ++ rest)] 1
        = (254 :: (toBytes 4 n ++ rest), []) := by
      rw [ensureData.eq_def, if_neg (by simp)]
      simp only [List.nil_append]
      exact ensureData_noop _ _ _ (by simp)
    rw [readSize, h1]
    simp only [show ¬((254 : Nat) < 254) from by norm_num, if_false]
    rw [ensureData_noop _ _ _ (by simp [toBytes_length])]
    rw [if_pos (show 4 ≤ (toBytes 4 n ++ rest).length from by
      simp [toBytes_length])]
    rw [take_toBytes_append, drop_toBytes_append, fromBytes_toBytes 4 n h]

/-- C3 counterexample: for the two-byte-element array `[1541]` the
serialized stream is `[1, 5, 6]`; delivered as the fragments
`[1, 5]` and `[6]` — a boundary that splits the last element after part
of it is already buffered — the element-copy deserializer blocks for
ever (it re-issues an `ensureData(1)` demand that the buffer already
meets, so no progress is possible: result `none`), whereas the same
stream delivered at once yields `[1541]`. -/
theorem fragmented_deser_counterexample :
    [[1, 5], [6]].flatten = arraySerializeBytes 2 [1541]
      ∧ (arrayDeserializeSlow 2 [] [[1, 5], [6]]).result = none
      ∧ (arrayDeserializeSlow 2 [] [[1, 5, 6]]).result = some ([1541], [], []) := by
  refine ⟨by simp [arraySerializeBytes, writeSize, toBytes], ?_, ?_⟩ <;>
    simp [arrayDeserializeSlow, readSize, ensureData, deserLoop, wantBytes,
      decodeChunks, fromBytes]

/-- C3 (amended): for every non-string array value, the element-copy
deserializer run on the serialized byte stream delivered one byte per
fragment — in particular every element, the last included, straddles
fragment boundaries — produces the same array value as the whole stream
delivered at once. -/
theorem array_one_byte_fragmented_roundtrip (w : Nat) (elems : List Nat)
    (hw : 0 < w) (hlen : elems.length < 2 ^ 32)
    (hb : ∀ v ∈ elems, v < 256 ^ w) :
    (arrayDeserializeSlow w [] (toSingles (arraySerializeBytes w elems))).result
        = some (elems, [], [])
      ∧ (arrayDeserializeSlow w [] [arraySerializeBytes w elems]).result
        = some (elems, [], []) := by
  constructor
  · unfold arrayDeserializeSlow arraySerializeBytes
    rw [readSize_singles _ _ hlen]
    exact deserLoop_singles w hw elems [] hb
  · unfold arrayDeserializeSlow arraySerializeBytes
    rw [readSize_single_fragment _ _ hlen]
    show (deserLoop w elems.length ((elems.map (toBytes w)).flatten) [] []).result
      = some (elems, [], [])
    have h2 := deserLoop_all_buffered w hw elems [] [] [] hb
    rw [List.append_nil] at h2
    rw [h2]
    simp

/-- Witness for `array_one_byte_fragmented_roundtrip` at a two-element
16-bit array. -/
theorem array_one_byte_fragmented_roundtrip_witness :
    (arrayDeserializeSlow 2 []
        (toSingles (arraySerializeBytes 2 [1541, 65535]))).result
      = some ([1541, 65535], [], [])
      ∧ (arrayDeserializeSlow 2 [] [arraySerializeBytes 2 [1541, 65535]]).result
        = some ([1541, 65535], [], []) :=
  array_one_byte_fragmented_roundtrip 2 [1541, 65535] (by decide) (by decide)
    (by decide)

/-- C4 counterexample: deserializing the 2-byte-element array stream
`[2, 5, 6, 7, 8]` with first fragment `[2, 5]` stalls with 1 byte of the
first element buffered (2 elements remaining) and requests `2` bytes — a
full element — although only `2 - 1 = 1` more byte is needed to complete
the element, refuting "exactly the number of additional bytes needed ...
for every element position". -/
theorem deser_requests_full_element_counterexample :
    (arrayDeserializeSlow 2 [] [[2, 5], [6, 7, 8]]).trace = [(2, 1, 2)]
      ∧ ¬((2 : Nat) = 2 - 1) := by
  constructor
  · simp [arrayDeserializeSlow, readSize, ensureData, deserLoop, wantBytes,
      decodeChunks, fromBytes]
  · decide

/-- C4 (amended): during non-direct array deserialization every
`ensureData` request is issued with fewer buffered bytes than one
element, and it requests exactly the missing bytes of the element only
when exactly one element remains (and elements are wider than one byte);
at every other stall it requests one full element's width. -/
theorem array_deser_stall_requests (w : Nat) (buf : List Nat)
    (frags : List (List Nat)) (hw : 0 < w) :
    ∀ t ∈ (arrayDeserializeSlow w buf frags).trace,
      t.2.1 < w
        ∧ t.2.2 = (if t.1 = 1 ∧ 1 < w then w - t.2.1 else w) := by
  unfold arrayDeserializeSlow
  cases hrs : readSize buf frags with
  | none => intro t ht; simp at ht
  | some x =>
    obtain ⟨size, b1, f1⟩ := x
    intro t ht
    have h := deserLoop_trace_requests w hw (size + f1.length) size b1 f1 []
      le_rfl t ht
    exact ⟨h.1, by rw [h.2]; rfl⟩

/-- Witness for `array_deser_stall_requests` at the concrete stall of the
counterexample run. -/
theorem array_deser_stall_requests_witness :
    ((2 : Nat), (1 : Nat), (2 : Nat)).2.1 < 2
      ∧ ((2 : Nat), (1 : Nat), (2 : Nat)).2.2
          = (if ((2 : Nat), (1 : Nat), (2 : Nat)).1 = 1 ∧ 1 < 2
             then 2 - ((2 : Nat), (1 : Nat), (2 : Nat)).2.1 else 2) :=
  array_deser_stall_requests 2 [] [[2, 5], [6, 7, 8]] (by decide)
    (2, 1, 2)
    (by simp [arrayDeserializeSlow, readSize, ensureData, deserLoop, wantBytes,
      decodeChunks, fromBytes])

/-- C8: the bounded-substring string serialization writes the size
prefix and exactly the byte range `[offset, offset + count)` clamped to
the stored string's length: the offset is clamped to the length, the
count to `length - clampedOffset`, and the payload is that clamped
substring (its length is the clamped count). -/
theorem string_bounded_serialize_clamps (value : List Nat) (offset count : Nat) :
    stringSerializeBounded value offset count
      = writeSize (min count (value.length - min offset value.length))
          ++ (value.drop (min offset value.length)).take
              (min count (value.length - min offset value.length))
      ∧ ((value.drop (min offset value.length)).take
            (min count (value.length - min offset value.length))).length
        = min count (value.length - min offset value.length) := by
  have ho : (if offset > value.length then value.length else offset)
      = min offset value.length := by
    rw [Nat.min_def]
    split_ifs <;> omega
  constructor
  · simp only [stringSerializeBounded, serializeSubstring]
    rw [ho]
    have hc : (if count > value.length - min offset value.length
          then value.length - min offset value.length else count)
        = min count (value.length - min offset value.length) := by
      rw [Nat.min_def]
      split_ifs <;> omega
    rw [hc]
  · rw [List.length_take, List.length_drop]
    exact min_eq_left (min_le_right _ _)

theorem scalarDeserialize_roundtrip (w v : Nat)
    (hv : v < 256 ^ w) (rest : List Nat) (frags : List (List Nat)) :
    scalarDeserialize w (scalarSerialize w v ++ rest) frags
      = some (v, rest, frags) := by
  unfold scalarDeserialize scalarSerialize
  rw [ensureData_noop _ _ _ (by simp [toBytes_length])]
  show (if w ≤ (toBytes w v ++ rest).length then
      some (fromBytes ((toBytes w v ++ rest).take w),
        (toBytes w v ++ rest).drop w, frags)
    else none) = some (v, rest, frags)
  rw [if_pos (by simp [toBytes_length])]
  rw [take_toBytes_append, drop_toBytes_append, fromBytes_toBytes w v hv]

theorem deserializeString_roundtrip (s rest : List Nat)
    (frags : List (List Nat)) (hl : s.length < 2 ^ 32) :
    deserializeString (serializeString s ++ rest) frags
      = some (s, rest, frags) := by
  unfold deserializeString serializeString
  rw [List.append_assoc, readSize_writeSize _ _ _ hl]
  show (match ensureData (s ++ rest) frags s.length with
    | (b2, f2) => if s.length ≤ b2.length
        then some (b2.take s.length, b2.drop s.length, f2) else none)
    = some (s, rest, frags)
  rw [ensureData_noop _ _ _ (by simp)]
  show (if s.length ≤ (s ++ rest).length then
      some ((s ++ rest).take s.length, (s ++ rest).drop s.length, frags)
    else none) = some (s, rest, frags)
  rw [if_pos (by simp), List.take_left, List.drop_left]

set_option linter.unusedVariables false in
theorem arrayDeserializeSlow_roundtrip (w : Nat) (hw : 0 < w)
    (elems rest : List Nat) (frags : List (List Nat))
    (hlen : elems.length < 2 ^ 32) (hb : ∀ v ∈ elems, v < 256 ^ w) :
    (arrayDeserializeSlow w (arraySerializeBytes w elems ++ rest) frags).result
      = some (elems, rest, frags) := by
  unfold arrayDeserializeSlow arraySerializeBytes
  rw [List.append_assoc, readSize_writeSize _ _ _ hlen]
  show (deserLoop w elems.length ((elems.map (toBytes w)).flatten ++ rest)
      frags []).result = some (elems, rest, frags)
  rw [deserLoop_all_buffered w hw elems rest [] frags hb]
  simp

set_option linter.unusedVariables false in
theorem arrayDeserializeDirect_roundtrip (w : Nat) (hw : 0 < w)
    (elems rest : List Nat) (frags : List (List Nat))
    (hlen : elems.length < 2 ^ 32) (hb : ∀ v ∈ elems, v < 256 ^ w) :
    arrayDeserializeDirect w (arraySerializeBytes w elems ++ rest) frags
      = some (elems, rest ++ frags.flatten) := by
  unfold arrayDeserializeDirect arraySerializeBytes
  rw [List.append_assoc, readSize_writeSize _ _ _ hlen]
  show (if elems.length * w
        ≤ (((elems.map (toBytes w)).flatten ++ rest) ++ frags.flatten).length
      then some (decodeChunks w elems.length
            (((elems.map (toBytes w)).flatten ++ rest) ++ frags.flatten),
          (((elems.map (toBytes w)).flatten ++ rest) ++ frags.flatten).drop
            (elems.length * w))
      else none) = some (elems, rest ++ frags.flatten)
  rw [if_pos (by
    simp only [List.length_append, flatten_map_toBytes_length]
    omega)]
  rw [List.append_assoc, decodeChunks_flatten w elems _ hb,
    List.drop_left' (flatten_map_toBytes_length w elems)]

theorem deserializeStrings_roundtrip :
    ∀ (ss : List (List Nat)) (rest : List Nat) (frags : List (List Nat)),
      (∀ s ∈ ss, s.length < 2 ^ 32) →
      deserializeStrings ss.length ((ss.map serializeString).flatten ++ rest)
          frags
        = some (ss, rest, frags) := by
  intro ss
  induction ss with
  | nil => intro rest frags _; rfl
  | cons s tail ih =>
    intro rest frags hb
    simp only [List.map_cons, List.flatten_cons, List.length_cons,
      List.append_assoc, deserializeStrings]
    rw [deserializeString_roundtrip s _ frags (hb s (by simp))]
    show (match deserializeStrings tail.length
        ((tail.map serializeString).flatten ++ rest) frags with
      | none => none
      | some (ss, b2, f2) => some (s :: ss, b2, f2))
      = some (s :: tail, rest, frags)
    rw [ih rest frags (fun x hx => hb x (by simp [hx]))]

theorem stringArrayDeserialize_roundtrip (ss : List (List Nat))
    (rest : List Nat) (frags : List (List Nat)) (hlen : ss.length < 2 ^ 32)
    (hb : ∀ s ∈ ss, s.length < 2 ^ 32) :
    stringArrayDeserialize (stringArraySerializeBytes ss ++ rest) frags
      = some (ss, rest, frags) := by
  unfold stringArrayDeserialize stringArraySerializeBytes
  rw [List.append_assoc, readSize_writeSize _ _ _ hlen]
  exact deserializeStrings_roundtrip ss rest frags hb

theorem serializeLoop_writes_all (w cap : Nat) (hw : 0 < w) (hcap : w ≤ cap) :
    ∀ (n : Nat) (elems obuf out : List Nat), elems.length ≤ n →
      obuf.length ≤ cap →
      serializeLoop w cap elems obuf out
        = some (out ++ obuf ++ (elems.map (toBytes w)).flatten) := by
  intro n
  induction n with
  | zero =>
    intro elems obuf out hlen _
    have h0 : elems = [] := List.length_eq_zero.mp (by omega)
    subst h0
    rw [serializeLoop]
    simp
  | succ n ih =>
    intro elems obuf out hlen hob
    cases elems with
    | nil =>
      rw [serializeLoop]
      simp
    | cons e tail =>
      have hwrite : ∀ (obuf2 out2 : List Nat), obuf2.length ≤ cap →
          ¬((cap - obuf2.length) / w = 0) →
          serializeLoop w cap (e :: tail) obuf2 out2
            = some (out2 ++ obuf2 ++ ((e :: tail).map (toBytes w)).flatten) := by
        intro obuf2 out2 hob2 hsp
        have hm1 : 1 ≤ min (e :: tail).length ((cap - obuf2.length) / w) :=
          le_min (by simp) (Nat.pos_of_ne_zero hsp)
        have hmw : min (e :: tail).length ((cap - obuf2.length) / w) * w
            ≤ cap - obuf2.length :=
          le_trans (Nat.mul_le_mul_right w (min_le_right _ _))
            (Nat.div_mul_le_self _ _)
        have hoblen : (obuf2 ++ (((e :: tail).take
              (min (e :: tail).length ((cap - obuf2.length) / w))).map
                (toBytes w)).flatten).length ≤ cap := by
          rw [List.length_append, flatten_map_toBytes_length,
            List.length_take, min_eq_left (min_le_left _ _)]
          omega
        have hdlen : ((e :: tail).drop
              (min (e :: tail).length ((cap - obuf2.length) / w))).length ≤ n := by
          rw [List.length_drop]
          simp only [List.length_cons] at hlen ⊢
          omega
        rw [serializeLoop]
        rw [dif_neg hsp]
        rw [ih _ _ _ hdlen hoblen]
        simp only [List.append_assoc, ← List.flatten_append, ← List.map_append,
          List.take_append_drop]
      by_cases hs : (cap - obuf.length) / w = 0
      · have hne : ¬obuf.isEmpty = true := by
          intro hem
          have h0 : obuf = [] := List.isEmpty_iff.mp hem
          subst h0
          simp only [List.length_nil, Nat.sub_zero] at hs
          have := (Nat.div_eq_zero_iff hw).mp hs
          omega
        rw [serializeLoop]
        rw [dif_pos hs, dif_neg hne]
        rw [hwrite [] (out ++ obuf) (by simp)
          (fun h0 => absurd ((Nat.div_eq_zero_iff hw).mp (by simpa using h0))
            (by omega))]
        simp [List.append_assoc]
      · exact hwrite obuf out hob hs

/-- The chunked output loop of `DefaultPVArray<T>::serialize` emits
exactly the element encodings in order whenever one element fits in the
output buffer, justifying `arraySerializeBytes`. -/
theorem serializeLoop_emits_elements (w cap : Nat) (hw : 0 < w)
    (hcap : w ≤ cap) (elems : List Nat) :
    serializeLoop w cap elems [] [] = some ((elems.map (toBytes w)).flatten) := by
  have h := serializeLoop_writes_all w cap hw hcap elems.length elems [] []
    le_rfl (by simp)
  simpa using h

mutual
theorem roundtripValue :
    ∀ (v : PVValue) (direct : Bool) (rest : List Nat)
      (frags : List (List Nat)), boundsOK v = true →
      deserializeValue (typeOf v) direct (serializeValue v ++ rest) frags
          = some (v, rest, frags)
        ∨ deserializeValue (typeOf v) direct (serializeValue v ++ rest) frags
          = some (v, rest ++ frags.flatten, [])
  | .scalarV w x, direct, rest, frags, hb => by
    left
    simp only [boundsOK, Bool.and_eq_true, decide_eq_true_eq] at hb
    simp only [typeOf, serializeValue, deserializeValue]
    rw [scalarDeserialize_roundtrip w x hb.2 rest frags]
  | .stringV s, direct, rest, frags, hb => by
    left
    simp only [boundsOK, decide_eq_true_eq] at hb
    simp only [typeOf, serializeValue, deserializeValue]
    rw [deserializeString_roundtrip s rest frags hb]
  | .arrayV w es, direct, rest, frags, hb => by
    simp only [boundsOK, Bool.and_eq_true, decide_eq_true_eq,
      List.all_eq_true] at hb
    obtain ⟨⟨hw, hlen⟩, hall⟩ := hb
    have hb2 : ∀ x ∈ es, x < 256 ^ w := fun x hx => by
      simpa using hall x hx
    simp only [typeOf, serializeValue, deserializeValue]
    cases direct with
    | false =>
      left
      rw [if_neg (by simp)]
      rw [arrayDeserializeSlow_roundtrip w hw es rest frags hlen hb2]
    | true =>
      right
      rw [if_pos rfl]
      rw [arrayDeserializeDirect_roundtrip w hw es rest frags hlen hb2]
  | .stringArrayV ss, direct, rest, frags, hb => by
    left
    simp only [boundsOK, Bool.and_eq_true, decide_eq_true_eq,
      List.all_eq_true] at hb
    obtain ⟨hlen, hall⟩ := hb
    have hb2 : ∀ x ∈ ss, x.length < 2 ^ 32 := fun x hx => by
      simpa using hall x hx
    simp only [typeOf, serializeValue, deserializeValue]
    rw [stringArrayDeserialize_roundtrip ss rest frags hlen hb2]
  | .structV fs, direct, rest, frags, hb => by
    have h := roundtripValueList fs direct rest frags hb
    simp only [typeOf, serializeValue, deserializeValue]
    rcases h with h | h
    · left
      rw [h]
    · right
      rw [h]

theorem roundtripValueList :
    ∀ (vs : PVValueList) (direct : Bool) (rest : List Nat)
      (frags : List (List Nat)), boundsOKList vs = true →
      deserializeValueList (typeOfList vs) direct
            (serializeValueList vs ++ rest) frags
          = some (vs, rest, frags)
        ∨ deserializeValueList (typeOfList vs) direct
            (serializeValueList vs ++ rest) frags
          = some (vs, rest ++ frags.flatten, [])
  | .nil, direct, rest, frags, _ => by
    left
    simp only [typeOfList, serializeValueList, List.nil_append,
      deserializeValueList]
  | .cons v tail, direct, rest, frags, hb => by
    simp only [boundsOKList, Bool.and_eq_true] at hb
    simp only [typeOfList, serializeValueList, List.append_assoc,
      deserializeValueList]
    have h1 := roundtripValue v direct (serializeValueList tail ++ rest)
      frags hb.1
    rcases h1 with h1 | h1
    · have h2 := roundtripValueList tail direct rest frags hb.2
      rcases h2 with h2 | h2
      · left
        rw [h1]
        show (match deserializeValueList (typeOfList tail) direct
            (serializeValueList tail ++ rest) frags with
          | none => none
          | some (vs, b2, f2) => some (PVValueList.cons v vs, b2, f2))
          = some (PVValueList.cons v tail, rest, frags)
        rw [h2]
      · right
        rw [h1]
        show (match deserializeValueList (typeOfList tail) direct
            (serializeValueList tail ++ rest) frags with
          | none => none
          | some (vs, b2, f2) => some (PVValueList.cons v vs, b2, f2))
          = some (PVValueList.cons v tail, rest ++ frags.flatten, [])
        rw [h2]
    · have h2 := roundtripValueList tail direct (rest ++ frags.flatten) []
        hb.2
      rw [← List.append_assoc] at h2
      rcases h2 with h2 | h2
      · right
        rw [h1]
        show (match deserializeValueList (typeOfList tail) direct
            (serializeValueList tail ++ rest ++ frags.flatten) [] with
          | none => none
          | some (vs, b2, f2) => some (PVValueList.cons v vs, b2, f2))
          = some (PVValueList.cons v tail, rest ++ frags.flatten, [])
        rw [h2]
      · right
        rw [h1]
        show (match deserializeValueList (typeOfList tail) direct
            (serializeValueList tail ++ rest ++ frags.flatten) [] with
          | none => none
          | some (vs, b2, f2) => some (PVValueList.cons v vs, b2, f2))
          = some (PVValueList.cons v tail, rest ++ frags.flatten, [])
        rw [h2]
        simp
end

/-- C2: for every value tree built from elementary scalars, strings,
non-string arrays, string arrays and structures of them (empty
strings/arrays and maximum-magnitude scalar values included),
deserializing the serialized byte stream into a matching default-valued
node returns exactly the original value, on the direct-transfer path
(`direct = true`) as well as the element-copy path (`direct = false`);
and the chunked output loop of `DefaultPVArray<T>::serialize` emits
exactly the element encodings whenever one element fits in the output
buffer. -/
theorem serialize_deserialize_roundtrip :
    (∀ (v : PVValue) (direct : Bool), boundsOK v = true →
      deserializeValue (typeOf v) direct (serializeValue v) []
        = some (v, [], []))
    ∧ (∀ (w cap : Nat) (elems : List Nat), 0 < w → w ≤ cap →
        serializeLoop w cap elems [] []
          = some ((elems.map (toBytes w)).flatten)) := by
  constructor
  · intro v direct hb
    have h := roundtripValue v direct [] [] hb
    rw [List.append_nil] at h
    rcases h with h | h
    · exact h
    · simpa using h
  · intro w cap elems hw hcap
    exact serializeLoop_emits_elements w cap hw hcap elems

/-- Witness for `serialize_deserialize_roundtrip`: a nested structure
holding a maximum-magnitude 64-bit scalar, an empty string, a 32-bit
array with a maximum element, a string array with an empty string, and a
nested structure with a maximum byte — round-tripped on both paths — and
the output loop on a two-element 16-bit array. -/
theorem serialize_deserialize_roundtrip_witness :
    (deserializeValue
        (typeOf (.structV (.cons (.scalarV 8 (256 ^ 8 - 1))
          (.cons (.stringV [])
            (.cons (.arrayV 4 [0, 256 ^ 4 - 1])
              (.cons (.stringArrayV [[], [104, 105]])
                (.cons (.structV (.cons (.scalarV 1 255) .nil)) .nil)))))))
        false
        (serializeValue (.structV (.cons (.scalarV 8 (256 ^ 8 - 1))
          (.cons (.stringV [])
            (.cons (.arrayV 4 [0, 256 ^ 4 - 1])
              (.cons (.stringArrayV [[], [104, 105]])
                (.cons (.structV (.cons (.scalarV 1 255) .nil)) .nil)))))))
        []
      = some ((.structV (.cons (.scalarV 8 (256 ^ 8 - 1))
          (.cons (.stringV [])
            (.cons (.arrayV 4 [0, 256 ^ 4 - 1])
              (.cons (.stringArrayV [[], [104, 105]])
                (.cons (.structV (.cons (.scalarV 1 255) .nil)) .nil)))))),
          [], []))
    ∧ (deserializeValue
        (typeOf (.structV (.cons (.scalarV 8 (256 ^ 8 - 1))
          (.cons (.stringV [])
            (.cons (.arrayV 4 [0, 256 ^ 4 - 1])
              (.cons (.stringArrayV [[], [104, 105]])
                (.cons (.structV (.cons (.scalarV 1 255) .nil)) .nil)))))))
        true
        (serializeValue (.structV (.cons (.scalarV 8 (256 ^ 8 - 1))
          (.cons (.stringV [])
            (.cons (.arrayV 4 [0, 256 ^ 4 - 1])
              (.cons (.stringArrayV [[], [104, 105]])
                (.cons (.structV (.cons (.scalarV 1 255) .nil)) .nil)))))))
        []
      = some ((.structV (.cons (.scalarV 8 (256 ^ 8 - 1))
          (.cons (.stringV [])
            (.cons (.arrayV 4 [0, 256 ^ 4 - 1])
              (.cons (.stringArrayV [[], [104, 105]])
                (.cons (.structV (.cons (.scalarV 1 255) .nil)) .nil)))))),
          [], []))
    ∧ serializeLoop 2 8 [1541, 65535] [] []
        = some (([1541, 65535].map (toBytes 2)).flatten) :=
  ⟨serialize_deserialize_roundtrip.1 _ false (by decide),
   serialize_deserialize_roundtrip.1 _ true (by decide),
   serialize_deserialize_roundtrip.2 2 8 [1541, 65535] (by decide) (by decide)⟩

/-- C1: compressing processes structures post-order; whenever, after its
children have been compressed, the bits at all the immediate children's
offsets of a structure are set, those child bits are cleared and the
structure's own bit is set; under
`current{value, alarm{severity, status, message}}` (offsets 0-5),
setting only severity, status and message (bits 3, 4, 5) compresses to
exactly the single bit at `alarm`'s offset (bitset `2 ^ 2`), with
`current`'s own bit 0 unset; setting value as well (bits 1, 3, 4, 5)
compresses to the single bit at `current`'s offset. -/
theorem compress_collapses_fully_set_structures :
    (∀ (cs : List PVNode) (o b : Nat),
      childrenAllSet cs (o + 1) (compressChildren cs (o + 1) b) = true →
        compressNode (.struct cs) o b
          = setBit (clearChildren cs (o + 1) (compressChildren cs (o + 1) b)) o)
    ∧ compressNode currentNode 0 (2 ^ 3 + 2 ^ 4 + 2 ^ 5) = 2 ^ 2
    ∧ Nat.testBit (compressNode currentNode 0 (2 ^ 3 + 2 ^ 4 + 2 ^ 5)) 0 = false
    ∧ compressNode currentNode 0 (2 ^ 1 + 2 ^ 3 + 2 ^ 4 + 2 ^ 5) = 2 ^ 0 := by
  refine ⟨?_, by decide, by decide, by decide⟩
  intro cs o b h
  simp only [compressNode, h, if_true]

/-- Witness for `compress_collapses_fully_set_structures`: the post-order
collapse step applied to a one-child structure whose child bit is set. -/
theorem compress_collapses_fully_set_structures_witness :
    childrenAllSet [PVNode.leaf] 1 (compressChildren [PVNode.leaf] 1 2) = true
      ∧ compressNode (.struct [PVNode.leaf]) 0 2
          = setBit (clearChildren [PVNode.leaf] 1
              (compressChildren [PVNode.leaf] 1 2)) 0 :=
  ⟨by decide,
   compress_collapses_fully_set_structures.1 [PVNode.leaf] 0 2 (by decide)⟩

/-- C5 counterexample: `setCapacity` on an immutable array value node
does not throw; `DefaultPVArray<T>::setCapacity` silently falls through
when `isCapacityMutable()` is false, so this mutation attempt returns
normally instead of failing with an `ImmutableViolation` error. -/
theorem setCapacity_immutable_returns_ok :
    setCapacity { immutable := true, capacityMutable := true
                , data := [1, 2], cap := 2 } 5
      = .ok { immutable := true, capacityMutable := true
            , data := [1, 2], cap := 2 } := rfl

/-- C5 (amended): on an array value node marked immutable, `setLength`,
`swap` and `setCapacityMutable(true)` each throw and leave the node
unchanged, while `setCapacity` silently leaves the node unchanged
without reporting an error. -/
theorem immutable_array_mutation_guards :
    ∀ (a : PVArrayNode) (l c : Nat) (other : List Nat),
      a.immutable = true →
        setLength a l = .error a
          ∧ swapBuffer a other = .error a
          ∧ setCapacityMutable a true = .error a
          ∧ setCapacity a c = .ok a := by
  intro a l c other h
  refine ⟨?_, ?_, ?_, ?_⟩
  · simp [setLength, h]
  · simp [swapBuffer, h]
  · simp [setCapacityMutable, h]
  · simp [setCapacity, isCapacityMutable, h]

/-- Witness for `immutable_array_mutation_guards` at a concrete immutable
node. -/
theorem immutable_array_mutation_guards_witness :
    setLength { immutable := true, capacityMutable := false
              , data := [7], cap := 1 } 3
      = .error { immutable := true, capacityMutable := false
               , data := [7], cap := 1 }
      ∧ swapBuffer { immutable := true, capacityMutable := false
                   , data := [7], cap := 1 } [9, 9]
          = .error { immutable := true, capacityMutable := false
                   , data := [7], cap := 1 }
      ∧ setCapacityMutable { immutable := true, capacityMutable := false
                           , data := [7], cap := 1 } true
          = .error { immutable := true, capacityMutable := false
                   , data := [7], cap := 1 }
      ∧ setCapacity { immutable := true, capacityMutable := false
                    , data := [7], cap := 1 } 3
          = .ok { immutable := true, capacityMutable := false
                , data := [7], cap := 1 } :=
  immutable_array_mutation_guards
    { immutable := true, capacityMutable := false, data := [7], cap := 1 }
    3 3 [9, 9] rfl

/-- C6: `freelist_allocator::alloc` throws exactly when the request
exceeds the fixed slot size, or a capped pool is at its outstanding
ceiling, or the free list is empty and the underlying allocator fails;
and on the `fixed(16) capped(2)` pool of `testVectorPool.cpp` a
17-element request fails and a third request with two outstanding
allocations fails. -/
theorem pool_alloc_failure_characterisation :
    (∀ (s : PoolState) (e n : Nat) (sysOk : Bool),
      allocFails (poolAlloc s e n sysOk) = true ↔
        (e * n > s.elemsize * s.allocsize
          ∨ (s.capped = true ∧ s.nallocd = s.numalloc)
          ∨ (s.flist = 0 ∧ sysOk = false)))
    ∧ allocFails (poolAlloc (poolInit 4 16 2 1 true) 4 17 true) = true
    ∧ allocFails
        (poolAlloc
          (afterAlloc (poolAlloc
            (afterAlloc (poolAlloc (poolInit 4 16 2 1 true) 4 16 true))
            4 8 true))
          4 8 true) = true := by
  refine ⟨?_, by decide, by decide⟩
  intro s e n sysOk
  by_cases h1 : e * n > s.elemsize * s.allocsize
      ∨ (s.capped = true ∧ s.nallocd = s.numalloc)
  · simp only [poolAlloc, if_pos h1, allocFails, true_iff]
    tauto
  · by_cases h2 : s.flist = 0
    · cases hs : sysOk
      · simp [poolAlloc, allocFails, h1, h2]
      · simp [poolAlloc, allocFails, h1, h2]
    · simp [poolAlloc, allocFails, h1, h2]

/-- C7: dropping the last reference decrements the outstanding count and
retains the buffer only while the free list is below the bound
`numalloc`; the free-list bound is preserved by release and by
allocation; and the `fixed(16) cached(2) initial(1)` scenario of
`testVectorPool.cpp` ends with 0 outstanding and exactly 2 free entries
after three allocations (16, 8, 8 elements) and three releases. -/
theorem pool_release_caches_up_to_bound :
    (∀ s : PoolState,
      (poolRelease s).nallocd = s.nallocd - 1
        ∧ (poolRelease s).flist
            = (if s.flist < s.numalloc then s.flist + 1 else s.flist))
    ∧ (∀ s : PoolState, s.flist ≤ s.numalloc →
        (poolRelease s).flist ≤ s.numalloc)
    ∧ (∀ (s : PoolState) (e n : Nat) (sysOk : Bool),
        s.flist ≤ s.numalloc →
        (afterAlloc (poolAlloc s e n sysOk)).flist ≤ s.numalloc)
    ∧ poolInfo
        (poolRelease (poolRelease (poolRelease
          (afterAlloc (poolAlloc
            (afterAlloc (poolAlloc
              (afterAlloc (poolAlloc (poolInit 4 16 2 1 false) 4 16 true))
              4 8 true))
            4 8 true)))))
      = (0, 0, 2, 128) := by
  refine ⟨?_, ?_, ?_, by decide⟩
  · intro s
    simp only [poolRelease]
    constructor
    · split
      · rfl
      · rfl
    · split <;> simp_all
  · intro s h
    simp only [poolRelease]
    split
    · simp only
      omega
    · simp_all
  · intro s e n sysOk h
    simp only [poolAlloc]
    split
    · simpa [afterAlloc] using h
    · split
      · simpa [afterAlloc] using Nat.le_trans (Nat.sub_le _ _) h
      · split <;> simpa [afterAlloc] using h

/-- Witness for `pool_release_caches_up_to_bound`: the bound-preservation
conjuncts applied at the concrete cached(2) pool with a full free list. -/
theorem pool_release_caches_up_to_bound_witness :
    (poolRelease (poolInit 4 16 2 2 false)).flist ≤ 2
      ∧ (afterAlloc (poolAlloc (poolInit 4 16 2 2 false) 4 16 true)).flist ≤ 2 :=
  ⟨pool_release_caches_up_to_bound.2.1 (poolInit 4 16 2 2 false) (by decide),
   pool_release_caches_up_to_bound.2.2.1 (poolInit 4 16 2 2 false) 4 16 true
     (by decide)⟩

/-- C9: for a capped pool the invariant `nallocd ≤ numalloc` and
`nallocd + flist ≤ numalloc` (the two `assert`s at the top of
`freelist_allocator::alloc`) holds after construction with
`initial(i ≤ n)` and is preserved by every allocation attempt (succeeding
or throwing) and by every release. -/
theorem pool_capped_invariant_preserved :
    (∀ e a n i : Nat, i ≤ n → cappedInvariant (poolInit e a n i true))
    ∧ (∀ (s : PoolState) (e n : Nat) (sysOk : Bool),
        s.capped = true → cappedInvariant s →
        cappedInvariant (afterAlloc (poolAlloc s e n sysOk)))
    ∧ (∀ s : PoolState, cappedInvariant s → cappedInvariant (poolRelease s)) := by
  refine ⟨?_, ?_, ?_⟩
  · intro e a n i h
    simp only [cappedInvariant, poolInit]
    omega
  · intro s e n sysOk hc hinv
    obtain ⟨h1, h2⟩ := hinv
    simp only [poolAlloc]
    split
    · exact ⟨h1, h2⟩
    · rename_i hguard
      rw [not_or] at hguard
      have hne : s.nallocd ≠ s.numalloc := fun h => hguard.2 ⟨hc, h⟩
      split
      · rename_i hf
        simp only [afterAlloc, cappedInvariant]
        omega
      · rename_i hf
        simp only [ne_eq, Decidable.not_not] at hf
        split <;> simp only [afterAlloc, cappedInvariant] <;> omega
  · intro s hinv
    obtain ⟨h1, h2⟩ := hinv
    simp only [poolRelease]
    split <;> simp only [cappedInvariant] <;> omega

/-- Witness for `pool_capped_invariant_preserved` at the concrete capped
pool of `testVectorPool.cpp` (`fixed(16) capped(2) initial(1)`). -/
theorem pool_capped_invariant_preserved_witness :
    cappedInvariant (poolInit 4 16 2 1 true)
      ∧ cappedInvariant
          (afterAlloc (poolAlloc (poolInit 4 16 2 1 true) 4 16 true))
      ∧ cappedInvariant (poolRelease (poolInit 4 16 2 1 true)) :=
  ⟨pool_capped_invariant_preserved.1 4 16 2 1 (by decide),
   pool_capped_invariant_preserved.2.1 (poolInit 4 16 2 1 true) 4 16 true rfl
     (by decide),
   pool_capped_invariant_preserved.2.2 (poolInit 4 16 2 1 true) (by decide)⟩

/-- C10: whenever `freelist_allocator::alloc` throws with the underlying
allocator failing, the pool state it leaves behind reports the same
statistics as before the request (on the fresh-allocation path the code
increments `nallocd` and restores it before throwing). -/
theorem pool_failed_alloc_leaves_stats_unchanged :
    ∀ (s s2 : PoolState) (e n : Nat) (sysOk : Bool),
      poolAlloc s e n sysOk = .error s2 → s2 = s ∧ poolInfo s2 = poolInfo s := by
  intro s s2 e n sysOk h
  suffices hs : s2 = s by exact ⟨hs, by rw [hs]⟩
  simp only [poolAlloc] at h
  split at h
  · exact (Except.error.injEq _ _).mp h |>.symm
  · split at h
    · cases h
    · split at h
      · cases h
      · have := (Except.error.injEq _ _).mp h
        subst this
        cases s
        simp

/-- Witness for `pool_failed_alloc_leaves_stats_unchanged`: a fresh
allocation on an empty-free-list pool whose system allocator fails. -/
theorem pool_failed_alloc_leaves_stats_unchanged_witness :
    poolInit 4 16 2 0 false = poolInit 4 16 2 0 false
      ∧ poolInfo (poolInit 4 16 2 0 false) = poolInfo (poolInit 4 16 2 0 false) :=
  pool_failed_alloc_leaves_stats_unchanged
    (poolInit 4 16 2 0 false) (poolInit 4 16 2 0 false) 4 16 false rfl

end PvData

